import Mathlib

/-
  Verification of the bounded lock-free SPSC queue of
  `lockfree-queue/src/SPSC.hpp` (class `Queue<DataType, ThreadsPolicy::SPSC, Waiting>`).

  The embedding mirrors the C++ sequentially: each member function becomes a pure
  function on an explicit record of the queue's fields.  Machine integers are
  modelled as follows:
  - `mPushIndex`, `mPopIndex`, `mCapacity`, `mIndexEnd` are signed `int`s whose
    values provably stay inside `[0, INT_MAX]` on the paths the claims concern,
    so they are embedded as `Int` (signed overflow would be UB in the source);
  - the atomic `mSize` wraps modulo 2^32 under `fetch_add`/`fetch_sub` and is
    manipulated bitwise (`fetch_or`/`fetch_and` with `sSizeMask = 0x80000000`),
    so it is embedded as its 32-bit pattern: a `Nat` reduced `% 2^32`.
  - the raw storage is a list of slots; an unconstructed slot is `none`, a live
    element is `some v`.  A null `mStorage` pointer is `Option.none` around the
    whole list.
  C++ `%` truncates toward zero while Lean `%` on `Int` is `emod`; the two agree
  on the non-negative indices the queue maintains, which is the only place the
  source applies `%`.
-/

namespace SPSCVerif

/-- The value of `std::numeric_limits<int>::max()` used by `Allocate`. -/
abbrev intMax : Int := 2147483647

/-- 2^32: the modulus of the 32-bit `std::atomic<int>` size counter pattern. -/
abbrev wordMod : Nat := 4294967296

/-- Bit pattern of `sSizeMask = 0x80000000` (the terminal flag, SPSC.hpp:33). -/
abbrev sSizeMaskBits : Nat := 2147483648

/-- Bit pattern of `~sSizeMask = 0x7fffffff` (mask clearing the high bit). -/
abbrev low31 : Nat := 2147483647

/-- The data members of `Queue<DataType, ThreadsPolicy::SPSC, Waiting>`
(SPSC.hpp:352-365). -/
structure Queue (α : Type) where
  mPushIndex : Int
  mPopIndex : Int
  mSize : Nat
  mStorage : Option (List (Option α))
  mCapacity : Int
  mIndexEnd : Int
deriving DecidableEq

/-- A default-constructed queue: atomics zero, null storage (SPSC.hpp:354,363-365). -/
def Queue.new (α : Type) : Queue α := ⟨0, 0, 0, none, 0, 0⟩

namespace Queue

variable {α : Type}

/-- `Is_Allocated` (SPSC.hpp:62-64): the storage pointer is non-null. -/
def Is_Allocated (q : Queue α) : Bool := q.mStorage.isSome

/-- Model helper: the slot list behind the storage pointer (meaningful only
when allocated; dereferencing a null pointer would be UB in the source). -/
def storageOf (q : Queue α) : List (Option α) := q.mStorage.getD []

/-- `size()` (SPSC.hpp:286-290): load `mSize` and clear the high bit. -/
def size (q : Queue α) : Nat := q.mSize &&& low31

/-- `empty()` (SPSC.hpp:292-294). -/
def empty (q : Queue α) : Bool := q.size == 0

/-- `Bump_Index` (SPSC.hpp:314-317). -/
def Bump_Index (q : Queue α) (aIndex : Int) : Int :=
  let cIncremented := aIndex + 1
  if cIncremented < q.mIndexEnd then cIncremented else 0

/-- `Increase_Index` (SPSC.hpp:319-323). -/
def Increase_Index (q : Queue α) (aIndex aIncrease : Int) : Int :=
  let cNewIndex := aIndex + aIncrease
  cNewIndex - (if q.mIndexEnd ≤ cNewIndex then q.mIndexEnd else 0)

/-- `Increase_Size` (SPSC.hpp:325-337): `mSize.fetch_add(aNumPushed)`, wrapping
as a 32-bit integer.  The notify call touches no queue field. -/
def Increase_Size (q : Queue α) (aNumPushed : Nat) : Queue α :=
  { q with mSize := (q.mSize + aNumPushed) % wordMod }

/-- `Decrease_Size` (SPSC.hpp:339-350): `mSize.fetch_sub(aNumPopped)`, wrapping
as a 32-bit integer.  The notify call touches no queue field. -/
def Decrease_Size (q : Queue α) (aNumPopped : Nat) : Queue α :=
  { q with mSize := (q.mSize + (wordMod - aNumPopped % wordMod)) % wordMod }

/-- `Emplace` (SPSC.hpp:76-102).  Returns the new state and the `bool` result.
On the non-full path the value is constructed in slot `pushIndex % capacity`,
the push index is bumped and the size incremented. -/
def Emplace (q : Queue α) (v : α) : Queue α × Bool :=
  let cIndexDelta := q.mPushIndex - q.mPopIndex
  if cIndexDelta = q.mCapacity ∨ cIndexDelta = q.mCapacity - q.mIndexEnd then
    (q, false)
  else
    let cPushIndex := (q.mPushIndex % q.mCapacity).toNat
    let q1 := { q with
      mStorage := q.mStorage.map (fun s => List.set s cPushIndex (some v)),
      mPushIndex := q.Bump_Index q.mPushIndex }
    (q1.Increase_Size 1, true)

/-- `Pop` (SPSC.hpp:104-130).  Returns the new state, the `bool` result, and the
value moved out of slot `popIndex % capacity` (the slot content; reading an
unconstructed slot would be UB in the source, hence the inner `Option`). -/
def Pop (q : Queue α) : Queue α × Bool × Option α :=
  if q.mPopIndex = q.mPushIndex then
    (q, false, none)
  else
    let cPopIndex := (q.mPopIndex % q.mCapacity).toNat
    let cData := q.storageOf.getD cPopIndex none
    let q1 := { q with
      mStorage := q.mStorage.map (fun s => List.set s cPopIndex none),
      mPopIndex := q.Bump_Index q.mPopIndex }
    (q1.Decrease_Size 1, true, cData)

end Queue

/-- Model helper: `std::uninitialized_move_n` writing consecutive slots from a
span (one contiguous run of `Emplace_Multiple`). -/
def writeRun : List (Option α) → Nat → List α → List (Option α)
  | s, _, [] => s
  | s, start, v :: vs => writeRun (s.set start (some v)) (start + 1) vs

/-- Model helper: the values one contiguous run of `Pop_Multiple` moves out. -/
def readRun (s : List (Option α)) (start n : Nat) : List (Option α) :=
  (List.range n).map (fun j => s.getD (start + j) none)

/-- Model helper: `std::destroy_n` on one contiguous run of slots. -/
def clearRun : List (Option α) → Nat → Nat → List (Option α)
  | s, _, 0 => s
  | s, start, n + 1 => clearRun (s.set start none) (start + 1) n

namespace Queue

variable {α : Type}

/-- `Emplace_Multiple` (SPSC.hpp:132-179).  The span is a list; the returned
list is the unconsumed suffix span. -/
def Emplace_Multiple (q : Queue α) (aSpan : List α) : Queue α × List α :=
  let cMaxPushIndex := q.mPopIndex + q.mCapacity
  let cRawSlots := cMaxPushIndex - q.mPushIndex
  let cMaxSlotsAvailable :=
    cRawSlots - (if q.mIndexEnd ≤ cRawSlots then q.mIndexEnd else 0)
  let cSpanSize : Int := aSpan.length
  let cNumToPush := min cSpanSize cMaxSlotsAvailable
  if cNumToPush = 0 then (q, aSpan)
  else
    let cPushIndex := (q.mPushIndex % q.mCapacity).toNat
    let n := cNumToPush.toNat
    let cDistanceBeyondEnd := (cPushIndex : Int) + cNumToPush - q.mCapacity
    let s := q.storageOf
    let s1 :=
      if cDistanceBeyondEnd ≤ 0 then writeRun s cPushIndex (aSpan.take n)
      else
        let cInitialLength := n - cDistanceBeyondEnd.toNat
        writeRun (writeRun s cPushIndex (aSpan.take cInitialLength)) 0
          ((aSpan.drop cInitialLength).take (n - cInitialLength))
    let q1 := { q with
      mStorage := some s1,
      mPushIndex := q.Increase_Index q.mPushIndex cNumToPush }
    (q1.Increase_Size n, aSpan.drop n)

end Queue

/-- The output container of `Pop_Multiple`: a vector-like container with
`size()` (length of `data`) and a fixed reserved `capacity`. -/
structure OutContainer (α : Type) where
  data : List α
  capacity : Nat
deriving DecidableEq

namespace Queue

variable {α : Type}

/-- `Pop_Multiple` (SPSC.hpp:181-231).  Appends up to
`aPopped.capacity() - aPopped.size()` moved-out values to the container and
destroys the popped slots. -/
def Pop_Multiple (q : Queue α) (aPopped : OutContainer α) : Queue α × OutContainer α :=
  let cRawSlots := q.mPushIndex - q.mPopIndex
  let cMaxSlotsAvailable := cRawSlots + (if cRawSlots < 0 then q.mIndexEnd else 0)
  let cOutputSpaceAvailable : Int := (aPopped.capacity : Int) - (aPopped.data.length : Int)
  let cNumToPop := min cOutputSpaceAvailable cMaxSlotsAvailable
  if cNumToPop = 0 then (q, aPopped)
  else
    let cPopIndex := (q.mPopIndex % q.mCapacity).toNat
    let n := cNumToPop.toNat
    let cDistanceBeyondEnd := (cPopIndex : Int) + cNumToPop - q.mCapacity
    let s := q.storageOf
    let reads :=
      if cDistanceBeyondEnd ≤ 0 then readRun s cPopIndex n
      else
        let cInitialLength := n - cDistanceBeyondEnd.toNat
        readRun s cPopIndex cInitialLength ++ readRun s 0 (n - cInitialLength)
    let s1 :=
      if cDistanceBeyondEnd ≤ 0 then clearRun s cPopIndex n
      else
        let cInitialLength := n - cDistanceBeyondEnd.toNat
        clearRun (clearRun s cPopIndex cInitialLength) 0 (n - cInitialLength)
    let q1 := { q with
      mStorage := some s1,
      mPopIndex := q.Increase_Index q.mPopIndex cNumToPop }
    (q1.Decrease_Size n, ⟨aPopped.data ++ reads.reduceOption, aPopped.capacity⟩)

/-- `End_PopWaiting` (SPSC.hpp:297-305): `mSize.fetch_or(sSizeMask)`.  The
notify call touches no queue field. -/
def End_PopWaiting (q : Queue α) : Queue α :=
  { q with mSize := q.mSize ||| sSizeMaskBits }

/-- `Reset_PopWaiting` (SPSC.hpp:307-310): `mSize.fetch_and(~sSizeMask)`. -/
def Reset_PopWaiting (q : Queue α) : Queue α :=
  { q with mSize := q.mSize &&& low31 }

end Queue

/-- Sequential outcome of one `Pop_Await` call (SPSC.hpp:252-266).  With no
concurrent producer the retry loop either succeeds on the first `Pop`, observes
`mSize == sSizeMask` and returns `false`, or waits forever. -/
inductive AwaitResult (α : Type) where
  | popped (val : Option α) (state : Queue α)
  | closed (state : Queue α)
  | blocked
deriving DecidableEq

namespace Queue

variable {α : Type}

/-- `Pop_Await` (SPSC.hpp:252-266), sequential semantics: try `Pop`; on failure
check the loaded `mSize` against `sSizeMask`; otherwise the wait never ends. -/
def Pop_Await (q : Queue α) : AwaitResult α :=
  let r := q.Pop
  if r.2.1 then AwaitResult.popped r.2.2 r.1
  else if r.1.mSize = sSizeMaskBits then AwaitResult.closed r.1
  else AwaitResult.blocked

end Queue

/-- Result of `Allocate`/`Free`: either normal return with the new state, or an
`Assert` failure (`std::abort` with a diagnostic) together with the state of
the fields at the moment of the abort. -/
inductive AllocOutcome (α : Type) where
  | ok (state : Queue α)
  | abortAssert (msg : String) (state : Queue α)
deriving DecidableEq

/-- The queue fields as they stand when the call returns or aborts. -/
def AllocOutcome.stateOf {α : Type} : AllocOutcome α → Queue α
  | .ok q => q
  | .abortAssert _ q => q

/-- Whether the call died on a failed `Assert` (a fatal abort). -/
def AllocOutcome.isFatal {α : Type} : AllocOutcome α → Bool
  | .ok _ => false
  | .abortAssert _ _ => true

namespace Queue

variable {α : Type}

/-- `Allocate` (SPSC.hpp:43-60).  `aAllocatorResult` models the buffer returned
by `aAllocator.Allocate`: `none` is the null out-of-memory sentinel, `some ()`
a fresh buffer of `aCapacity` unconstructed slots.  Assignments happen in
source order, so the state carried by an abort reflects the writes already
performed; diagnostic strings follow the source messages. -/
def Allocate (q : Queue α) (aAllocatorResult : Option Unit) (aCapacity : Int) :
    AllocOutcome α :=
  if q.Is_Allocated then
    .abortAssert "Cannot allocate while still owning memory!" q
  else if aCapacity ≤ 0 then
    .abortAssert "Invalid capacity!" q
  else
    match aAllocatorResult with
    | none => .abortAssert "Memory allocation failed!" { q with mStorage := none }
    | some _ =>
      let q1 := { q with
        mStorage := some (List.replicate aCapacity.toNat (none : Option α)),
        mCapacity := aCapacity }
      let cMaxNumWrapArounds := intMax / aCapacity
      if 2 ≤ cMaxNumWrapArounds then
        .ok { q1 with mIndexEnd := aCapacity * cMaxNumWrapArounds }
      else
        .abortAssert "Not enough wrap-arounds!" q1

/-- `Free` (SPSC.hpp:66-74).  Returning the buffer to the allocator is modelled
by dropping the storage; the pointer is nulled and the capacity zeroed. -/
def Free (q : Queue α) : AllocOutcome α :=
  if q.Is_Allocated = false then
    .abortAssert "No memory to free!" q
  else if q.empty = false then
    .abortAssert "Cannot free until empty!" q
  else
    .ok { q with mStorage := none, mCapacity := 0 }

end Queue

/-- Live element count of the ring: `(pushIndex - popIndex) mod indexEnd`
(spec §3 invariant 2). -/
def Queue.count {α : Type} (q : Queue α) : Int :=
  (q.mPushIndex - q.mPopIndex) % q.mIndexEnd

/-- Structural well-formedness established by a successful `Allocate`:
allocated, storage of exactly `capacity` slots, a positive capacity, and an
`indexEnd` that allows at least two wrap-arounds while staying within
`INT_MAX` (SPSC.hpp:56-59). -/
@[reducible] def Queue.WF {α : Type} (q : Queue α) : Prop :=
  q.Is_Allocated = true ∧
  q.storageOf.length = q.mCapacity.toNat ∧
  0 < q.mCapacity ∧
  q.mCapacity * 2 ≤ q.mIndexEnd ∧
  q.mIndexEnd ≤ intMax

/-- The index/size invariants of spec §3: indices in `[0, indexEnd)`, the low
31 bits of the size counter equal to the live element count, and that count at
most `capacity`.  The final conjunct pins `mSize` to its 32-bit range, which
the embedding maintains in place of the C++ type of the atomic. -/
@[reducible] def Queue.Inv {α : Type} (q : Queue α) : Prop :=
  0 ≤ q.mPushIndex ∧ q.mPushIndex < q.mIndexEnd ∧
  0 ≤ q.mPopIndex ∧ q.mPopIndex < q.mIndexEnd ∧
  (q.size : Int) = q.count ∧
  q.count ≤ q.mCapacity ∧
  q.mSize < wordMod

/-- Spec §3 invariant 3: every slot holding a live element, i.e. slot
`(popIndex + j) mod capacity` for `j` below the element count, is constructed. -/
@[reducible] def Queue.Live {α : Type} (q : Queue α) : Prop :=
  ∀ j : Nat, j < q.count.toNat →
    (q.storageOf.getD (((q.mPopIndex + (j : Int)) % q.mCapacity).toNat) none).isSome = true

/-- The terminal flag (high bit of the 32-bit `mSize` pattern) is set. -/
@[reducible] def Queue.Terminal_Set {α : Type} (q : Queue α) : Prop :=
  sSizeMaskBits ≤ q.mSize

end SPSCVerif

namespace SPSCVerif

/-- An integer strictly between `-E` and `E` reduces under `% E` to itself or
to itself plus `E`, according to its sign. -/
theorem emod_window (d E : Int) (hE : 0 < E) (h1 : -E < d) (h2 : d < E) :
    d % E = if 0 ≤ d then d else d + E := by
  split
  · exact Int.emod_eq_of_lt (by omega) h2
  · have h3 : (d + E) % E = d % E := by
      simpa using Int.add_mul_emod_self_left d E 1
    rw [← h3]
    exact Int.emod_eq_of_lt (by omega) (by omega)

/-- Clearing the high bit of the 32-bit pattern is reduction mod 2^31. -/
theorem Queue.size_eq_mod {α : Type} (q : Queue α) :
    q.size = q.mSize % 2147483648 := by
  have h := Nat.and_pow_two_sub_one_eq_mod q.mSize 31
  norm_num at h
  simpa [Queue.size, low31] using h

/-- Setting the high bit leaves the low 31 bits untouched. -/
theorem lor_mask_and_low31 (s : Nat) :
    (s ||| sSizeMaskBits) &&& low31 = s &&& low31 := by
  show (s ||| 2 ^ 31) &&& (2 ^ 31 - 1) = s &&& (2 ^ 31 - 1)
  apply Nat.eq_of_testBit_eq
  intro i
  have hm : ∀ j : Nat, (2 ^ 31 - 1 : Nat).testBit j = decide (j < 31) :=
    fun j => Nat.testBit_two_pow_sub_one 31 j
  simp only [Nat.testBit_and, Nat.testBit_or, Nat.testBit_two_pow, hm]
  rcases Nat.lt_trichotomy i 31 with h | h | h
  · simp [h, Nat.ne_of_gt h]
  · simp [h]
  · simp [Nat.le_of_lt h, Nat.ne_of_lt h, Nat.lt_asymm h]

/-- Clearing the high bit leaves the low 31 bits untouched. -/
theorem land_mask_and_low31 (s : Nat) :
    (s &&& low31) &&& low31 = s &&& low31 := by
  rw [Nat.and_assoc, Nat.and_self]

/-- `fetch_or(sSizeMask)` sets the terminal bit. -/
theorem testBit31_lor (s : Nat) : (s ||| sSizeMaskBits).testBit 31 = true := by
  have hbit : Nat.testBit sSizeMaskBits 31 = true := by decide
  simp [Nat.testBit_or, hbit]

/-- `fetch_and(~sSizeMask)` clears the terminal bit. -/
theorem testBit31_land (s : Nat) : (s &&& low31).testBit 31 = false := by
  have hbit : Nat.testBit low31 31 = false := by decide
  simp [Nat.testBit_and, hbit]

/-- The element count written as a case split on index order. -/
theorem Queue.count_window {α : Type} (q : Queue α) (hE : 0 < q.mIndexEnd)
    (hP1 : 0 ≤ q.mPushIndex) (hP2 : q.mPushIndex < q.mIndexEnd)
    (hO1 : 0 ≤ q.mPopIndex) (hO2 : q.mPopIndex < q.mIndexEnd) :
    q.count = if q.mPopIndex ≤ q.mPushIndex
              then q.mPushIndex - q.mPopIndex
              else q.mPushIndex - q.mPopIndex + q.mIndexEnd := by
  rw [Queue.count, emod_window _ _ hE (by omega) (by omega)]
  rcases le_or_lt q.mPopIndex q.mPushIndex with h | h
  · rw [if_pos (by omega), if_pos h]
  · rw [if_neg (by omega), if_neg (by omega)]

/-- Advancing the push index by `n` (with the wrap of `Increase_Index`)
raises the count by `n`, provided the result still fits in the ring. -/
theorem count_advance_push (P O E C n : Int)
    (hC : 0 < C) (hCE : C * 2 ≤ E)
    (hP1 : 0 ≤ P) (hP2 : P < E) (hO1 : 0 ≤ O) (hO2 : O < E)
    (hn : 0 ≤ n) (hsum : (P - O) % E + n ≤ C) :
    (P + n - (if E ≤ P + n then E else 0) - O) % E = (P - O) % E + n := by
  have hE : 0 < E := by omega
  have h1 : (P - O) % E = if 0 ≤ P - O then P - O else P - O + E :=
    emod_window _ _ hE (by omega) (by omega)
  rw [h1] at hsum ⊢
  have hnC : n ≤ C := by split_ifs at hsum <;> omega
  rw [emod_window _ _ hE (by split <;> omega) (by split <;> omega)]
  split_ifs at hsum ⊢ <;> omega

/-- Advancing the pop index by `n` (with the wrap of `Increase_Index`)
lowers the count by `n`, provided `n` elements are present. -/
theorem count_advance_pop (P O E C n : Int)
    (hC : 0 < C) (hCE : C * 2 ≤ E)
    (hP1 : 0 ≤ P) (hP2 : P < E) (hO1 : 0 ≤ O) (hO2 : O < E)
    (hn : 0 ≤ n) (hle : n ≤ (P - O) % E) (hcnt : (P - O) % E ≤ C) :
    (P - (O + n - (if E ≤ O + n then E else 0))) % E = (P - O) % E - n := by
  have hE : 0 < E := by omega
  have h1 : (P - O) % E = if 0 ≤ P - O then P - O else P - O + E :=
    emod_window _ _ hE (by omega) (by omega)
  rw [h1] at hle hcnt ⊢
  have hnC : n ≤ C := by split_ifs at hle hcnt <;> omega
  rw [emod_window _ _ hE (by split <;> omega) (by split <;> omega)]
  split_ifs at hle hcnt ⊢ <;> omega

/-- `Bump_Index` coincides with `Increase_Index` by one on an in-range index. -/
theorem Queue.bump_eq_increase {α : Type} (q : Queue α) (i : Int)
    (h : i < q.mIndexEnd) :
    q.Bump_Index i = q.Increase_Index i 1 := by
  simp only [Queue.Bump_Index, Queue.Increase_Index]
  split <;> split <;> omega

/-- One contiguous write leaves the slot-array length unchanged. -/
theorem writeRun_length {α : Type} :
    ∀ (vs : List α) (s : List (Option α)) (start : Nat),
      (writeRun s start vs).length = s.length := by
  intro vs
  induction vs with
  | nil => intro s start; rfl
  | cons v vs ih => intro s start; rw [writeRun, ih]; simp

/-- One contiguous destroy leaves the slot-array length unchanged. -/
theorem clearRun_length {α : Type} :
    ∀ (n : Nat) (s : List (Option α)) (start : Nat),
      (clearRun s start n).length = s.length := by
  intro n
  induction n with
  | zero => intro s start; rfl
  | succ m ih => intro s start; rw [clearRun, ih]; simp

/-- A run of reads has as many entries as requested. -/
theorem readRun_length {α : Type} (s : List (Option α)) (start n : Nat) :
    (readRun s start n).length = n := by
  simp [readRun]

/-- Dropping the `none`s keeps the length when there are none to drop. -/
theorem reduceOption_length_of_isSome {α : Type} :
    ∀ (l : List (Option α)), (∀ x ∈ l, x.isSome = true) →
      l.reduceOption.length = l.length := by
  intro l
  induction l with
  | nil => intro _; rfl
  | cons x xs ih =>
    intro h
    have hx : x.isSome = true := h x (by simp)
    obtain ⟨v, rfl⟩ := Option.isSome_iff_exists.mp hx
    simp only [List.reduceOption_cons_of_some, List.length_cons]
    rw [ih (fun y hy => h y (by simp [hy]))]

end SPSCVerif

namespace SPSCVerif

/-- A 32-bit `fetch_add` adds on the low 31 bits while they fit. -/
theorem size_mod_add (s n : Nat) (hw : s < 4294967296)
    (hfit : s % 2147483648 + n < 2147483648) :
    ((s + n) % 4294967296) % 2147483648 = s % 2147483648 + n := by
  omega

/-- A 32-bit `fetch_sub` subtracts on the low 31 bits while they cover it. -/
theorem size_mod_sub (s n : Nat) (hw : s < 4294967296)
    (hle : n ≤ s % 2147483648) :
    ((s + (4294967296 - n % 4294967296)) % 4294967296) % 2147483648
      = s % 2147483648 - n := by
  omega

/-- `Emplace` on a queue failing the two-point full check: the explicit
result state. -/
theorem Queue.Emplace_not_full_eq {α : Type} (q : Queue α) (v : α)
    (h : ¬(q.mPushIndex - q.mPopIndex = q.mCapacity ∨
           q.mPushIndex - q.mPopIndex = q.mCapacity - q.mIndexEnd)) :
    q.Emplace v =
      ({ q with
          mStorage := q.mStorage.map
            (fun s => List.set s (q.mPushIndex % q.mCapacity).toNat (some v)),
          mPushIndex := q.Bump_Index q.mPushIndex,
          mSize := (q.mSize + 1) % wordMod }, true) := by
  simp [Queue.Emplace, h, Queue.Increase_Size]

/-- `Emplace` on a queue passing the two-point full check does nothing. -/
theorem Queue.Emplace_full_eq {α : Type} (q : Queue α) (v : α)
    (h : q.mPushIndex - q.mPopIndex = q.mCapacity ∨
         q.mPushIndex - q.mPopIndex = q.mCapacity - q.mIndexEnd) :
    q.Emplace v = (q, false) := by
  simp [Queue.Emplace, h]

/-- `Pop` on an empty queue does nothing. -/
theorem Queue.Pop_empty_eq {α : Type} (q : Queue α)
    (h : q.mPopIndex = q.mPushIndex) :
    q.Pop = (q, false, none) := by
  simp [Queue.Pop, h]

/-- `Pop` on a non-empty queue: the explicit result state and value. -/
theorem Queue.Pop_nonempty_eq {α : Type} (q : Queue α)
    (h : ¬ q.mPopIndex = q.mPushIndex) :
    q.Pop =
      ({ q with
          mStorage := q.mStorage.map
            (fun s => List.set s (q.mPopIndex % q.mCapacity).toNat none),
          mPopIndex := q.Bump_Index q.mPopIndex,
          mSize := (q.mSize + (wordMod - 1 % wordMod)) % wordMod },
        true, q.storageOf.getD (q.mPopIndex % q.mCapacity).toNat none) := by
  simp [Queue.Pop, h, Queue.Decrease_Size]

/-- Under the index bounds, the ring is empty exactly when the indices agree. -/
theorem Queue.count_eq_zero_iff {α : Type} (q : Queue α)
    (hE : 0 < q.mIndexEnd)
    (hP1 : 0 ≤ q.mPushIndex) (hP2 : q.mPushIndex < q.mIndexEnd)
    (hO1 : 0 ≤ q.mPopIndex) (hO2 : q.mPopIndex < q.mIndexEnd) :
    q.count = 0 ↔ q.mPopIndex = q.mPushIndex := by
  rw [Queue.count, emod_window _ _ hE (by omega) (by omega)]
  split_ifs <;> omega

/-- Under the invariants the two-point full check recognises exactly the
states whose element count equals the capacity. -/
theorem Queue.full_iff_count {α : Type} (q : Queue α) (hwf : q.WF) (hinv : q.Inv) :
    (q.mPushIndex - q.mPopIndex = q.mCapacity ∨
     q.mPushIndex - q.mPopIndex = q.mCapacity - q.mIndexEnd) ↔
      q.count = q.mCapacity := by
  obtain ⟨hal, hlen, hC, hCE, hEmax⟩ := hwf
  obtain ⟨hP1, hP2, hO1, hO2, hsz, hcnt, hw⟩ := hinv
  have hE : 0 < q.mIndexEnd := by omega
  rw [Queue.count, emod_window _ _ hE (by omega) (by omega)]
  split_ifs <;> omega

end SPSCVerif

namespace SPSCVerif

/-- `Emplace` preserves the structural and index/size invariants. -/
theorem Queue.Emplace_preserves {α : Type} (q : Queue α) (v : α)
    (hwf : q.WF) (hinv : q.Inv) :
    (q.Emplace v).1.WF ∧ (q.Emplace v).1.Inv := by
  by_cases h : (q.mPushIndex - q.mPopIndex = q.mCapacity ∨
                q.mPushIndex - q.mPopIndex = q.mCapacity - q.mIndexEnd)
  · rw [Queue.Emplace_full_eq q v h]
    exact ⟨hwf, hinv⟩
  · have hlt : q.count < q.mCapacity := by
      have hfull := (Queue.full_iff_count q hwf hinv).mpr
      rcases lt_or_eq_of_le hinv.2.2.2.2.2.1 with h1 | h1
      · exact h1
      · exact absurd (hfull h1) h
    obtain ⟨hal, hlen, hC, hCE, hEmax⟩ := hwf
    obtain ⟨hP1, hP2, hO1, hO2, hsz, hcnt, hw⟩ := hinv
    have hEmax' : q.mIndexEnd ≤ 2147483647 := hEmax
    have hw' : q.mSize < 4294967296 := hw
    obtain ⟨s, hs⟩ := Option.isSome_iff_exists.mp
      (by simpa [Queue.Is_Allocated] using hal)
    have hE : 0 < q.mIndexEnd := by omega
    rw [Queue.Emplace_not_full_eq q v h]
    have hcount' :
        (q.Bump_Index q.mPushIndex - q.mPopIndex) % q.mIndexEnd = q.count + 1 := by
      rw [Queue.bump_eq_increase q _ hP2, Queue.Increase_Index]
      exact count_advance_push q.mPushIndex q.mPopIndex q.mIndexEnd q.mCapacity 1
        hC hCE hP1 hP2 hO1 hO2 (by omega) (by rw [← Queue.count]; omega)
    refine ⟨⟨?_, ?_, hC, hCE, hEmax⟩, ?_, ?_, hO1, hO2, ?_, ?_, ?_⟩
    · simp [Queue.Is_Allocated, hs]
    · simpa [Queue.storageOf, hs] using hlen
    · show 0 ≤ q.Bump_Index q.mPushIndex
      rw [Queue.Bump_Index]
      split <;> omega
    · show q.Bump_Index q.mPushIndex < q.mIndexEnd
      rw [Queue.Bump_Index]
      split <;> omega
    · show ((((q.mSize + 1) % wordMod) &&& low31 : Nat) : Int)
        = (q.Bump_Index q.mPushIndex - q.mPopIndex) % q.mIndexEnd
      rw [hcount']
      have h1 : ((q.mSize + 1) % wordMod) &&& low31
          = ((q.mSize + 1) % wordMod) % 2147483648 :=
        Queue.size_eq_mod ({ q with mSize := (q.mSize + 1) % wordMod } : Queue α)
      rw [h1]
      have h5 : (q.size : Int) = q.count := hsz
      rw [Queue.size_eq_mod] at h5
      have h2 : q.mSize % 2147483648 + 1 < 2147483648 := by omega
      have h4 := size_mod_add q.mSize 1 hw' h2
      show (((q.mSize + 1) % 4294967296) % 2147483648 : Nat) = (q.count + 1 : Int)
      rw [h4]
      push_cast
      omega
    · show (q.Bump_Index q.mPushIndex - q.mPopIndex) % q.mIndexEnd ≤ q.mCapacity
      rw [hcount']
      omega
    · show (q.mSize + 1) % wordMod < wordMod
      exact Nat.mod_lt _ (by norm_num)

/-- `Pop` preserves the structural and index/size invariants. -/
theorem Queue.Pop_preserves {α : Type} (q : Queue α)
    (hwf : q.WF) (hinv : q.Inv) :
    (q.Pop).1.WF ∧ (q.Pop).1.Inv := by
  by_cases h : q.mPopIndex = q.mPushIndex
  · rw [Queue.Pop_empty_eq q h]
    exact ⟨hwf, hinv⟩
  · obtain ⟨hal, hlen, hC, hCE, hEmax⟩ := hwf
    obtain ⟨hP1, hP2, hO1, hO2, hsz, hcnt, hw⟩ := hinv
    have hEmax' : q.mIndexEnd ≤ 2147483647 := hEmax
    have hw' : q.mSize < 4294967296 := hw
    obtain ⟨s, hs⟩ := Option.isSome_iff_exists.mp
      (by simpa [Queue.Is_Allocated] using hal)
    have hE : 0 < q.mIndexEnd := by omega
    have hpos : 0 < q.count := by
      have h0 : 0 ≤ q.count := Int.emod_nonneg _ (by omega)
      have hne : q.count ≠ 0 := fun hc =>
        h ((Queue.count_eq_zero_iff q hE hP1 hP2 hO1 hO2).mp hc)
      omega
    rw [Queue.Pop_nonempty_eq q h]
    have hcount' :
        (q.mPushIndex - q.Bump_Index q.mPopIndex) % q.mIndexEnd = q.count - 1 := by
      rw [Queue.bump_eq_increase q _ hO2, Queue.Increase_Index]
      exact count_advance_pop q.mPushIndex q.mPopIndex q.mIndexEnd q.mCapacity 1
        hC hCE hP1 hP2 hO1 hO2 (by omega) (by rw [← Queue.count]; omega)
        (by rw [← Queue.count]; omega)
    refine ⟨⟨?_, ?_, hC, hCE, hEmax⟩, hP1, hP2, ?_, ?_, ?_, ?_, ?_⟩
    · simp [Queue.Is_Allocated, hs]
    · simpa [Queue.storageOf, hs] using hlen
    · show 0 ≤ q.Bump_Index q.mPopIndex
      rw [Queue.Bump_Index]
      split <;> omega
    · show q.Bump_Index q.mPopIndex < q.mIndexEnd
      rw [Queue.Bump_Index]
      split <;> omega
    · show ((((q.mSize + (wordMod - 1 % wordMod)) % wordMod) &&& low31 : Nat) : Int)
        = (q.mPushIndex - q.Bump_Index q.mPopIndex) % q.mIndexEnd
      rw [hcount']
      have h1 : ((q.mSize + (wordMod - 1 % wordMod)) % wordMod) &&& low31
          = ((q.mSize + (wordMod - 1 % wordMod)) % wordMod) % 2147483648 :=
        Queue.size_eq_mod
          ({ q with mSize := (q.mSize + (wordMod - 1 % wordMod)) % wordMod } : Queue α)
      rw [h1]
      have h5 : (q.size : Int) = q.count := hsz
      rw [Queue.size_eq_mod] at h5
      have h2 : 1 ≤ q.mSize % 2147483648 := by omega
      have h4 := size_mod_sub q.mSize 1 hw' h2
      show (((q.mSize + (4294967296 - 1 % 4294967296)) % 4294967296) % 2147483648 : Nat)
        = (q.count - 1 : Int)
      rw [h4]
      push_cast
      omega
    · show (q.mPushIndex - q.Bump_Index q.mPopIndex) % q.mIndexEnd ≤ q.mCapacity
      rw [hcount']
      omega
    · show (q.mSize + (wordMod - 1 % wordMod)) % wordMod < wordMod
      exact Nat.mod_lt _ (by norm_num)

end SPSCVerif

namespace SPSCVerif

/-- Low-31-bit masking is reduction mod 2^31 (raw form). -/
theorem and_low31_eq_mod (t : Nat) : t &&& low31 = t % 2147483648 := by
  have h := Nat.and_pow_two_sub_one_eq_mod t 31
  norm_num at h
  simpa [low31] using h

/-- Observable-size effect of a 32-bit `fetch_add` while the count fits. -/
theorem size_bits_add (s n : Nat) (hw : s < 4294967296)
    (hfit : s % 2147483648 + n < 2147483648) :
    ((s + n) % wordMod) &&& low31 = (s &&& low31) + n := by
  rw [and_low31_eq_mod, and_low31_eq_mod]
  show ((s + n) % 4294967296) % 2147483648 = s % 2147483648 + n
  omega

/-- Observable-size effect of a 32-bit `fetch_sub` while covered. -/
theorem size_bits_sub (s n : Nat) (hw : s < 4294967296)
    (hle : n ≤ s % 2147483648) :
    ((s + (wordMod - n % wordMod)) % wordMod) &&& low31 = (s &&& low31) - n := by
  rw [and_low31_eq_mod, and_low31_eq_mod]
  show ((s + (4294967296 - n % 4294967296)) % 4294967296) % 2147483648
    = s % 2147483648 - n
  omega

/-- Adding a small offset to a non-negative index commutes with `% capacity`
when no wrap occurs. -/
theorem emod_add_small (O C : Int) (j : Nat) (hC : 0 < C) (hO : 0 ≤ O)
    (h : O % C + (j : Int) < C) :
    (O + (j : Int)) % C = O % C + j := by
  have hOC : 0 ≤ O % C := Int.emod_nonneg _ (by omega)
  have hdiv := Int.ediv_add_emod O C
  have h2 : O + (j : Int) = (O % C + (j : Int)) + C * (O / C) := by omega
  rw [h2, Int.add_mul_emod_self_left]
  exact Int.emod_eq_of_lt (by omega) h

/-- Adding a small offset to a non-negative index under `% capacity` when one
wrap occurs. -/
theorem emod_add_wrap (O C : Int) (j : Nat) (hC : 0 < C) (hO : 0 ≤ O)
    (h1 : C ≤ O % C + (j : Int)) (h2 : O % C + (j : Int) < 2 * C) :
    (O + (j : Int)) % C = O % C + j - C := by
  have hOC : 0 ≤ O % C := Int.emod_nonneg _ (by omega)
  have hdiv := Int.ediv_add_emod O C
  have h3 : O + (j : Int) = (O % C + (j : Int) - C) + C * (O / C + 1) := by
    rw [Int.mul_add, Int.mul_one]
    omega
  rw [h3, Int.add_mul_emod_self_left]
  exact Int.emod_eq_of_lt (by omega) (by omega)

/-- The wrapped free-slot computation of `Emplace_Multiple` equals
`capacity - count`. -/
theorem Queue.max_slots_push {α : Type} (q : Queue α)
    (hC : 0 < q.mCapacity) (hCE : q.mCapacity * 2 ≤ q.mIndexEnd)
    (hP1 : 0 ≤ q.mPushIndex) (hP2 : q.mPushIndex < q.mIndexEnd)
    (hO1 : 0 ≤ q.mPopIndex) (hO2 : q.mPopIndex < q.mIndexEnd)
    (hcnt : q.count ≤ q.mCapacity) :
    q.mPopIndex + q.mCapacity - q.mPushIndex -
      (if q.mIndexEnd ≤ q.mPopIndex + q.mCapacity - q.mPushIndex
       then q.mIndexEnd else 0)
      = q.mCapacity - q.count := by
  have hE : 0 < q.mIndexEnd := by omega
  rw [Queue.count, emod_window _ _ hE (by omega) (by omega)] at hcnt ⊢
  split_ifs at hcnt ⊢ <;> omega

/-- The wrapped occupied-slot computation of `Pop_Multiple` equals `count`. -/
theorem Queue.max_slots_pop {α : Type} (q : Queue α) (hE : 0 < q.mIndexEnd)
    (hP1 : 0 ≤ q.mPushIndex) (hP2 : q.mPushIndex < q.mIndexEnd)
    (hO1 : 0 ≤ q.mPopIndex) (hO2 : q.mPopIndex < q.mIndexEnd) :
    q.mPushIndex - q.mPopIndex +
      (if q.mPushIndex - q.mPopIndex < 0 then q.mIndexEnd else 0) = q.count := by
  rw [Queue.count, emod_window _ _ hE (by omega) (by omega)]
  split_ifs <;> omega

/-- `Increase_Index` keeps an in-range index in range for increments up to one
ring width. -/
theorem Queue.Increase_Index_range {α : Type} (q : Queue α) (i n : Int)
    (h1 : 0 ≤ i) (h2 : i < q.mIndexEnd) (h3 : 0 ≤ n) (h4 : i + n < 2 * q.mIndexEnd) :
    0 ≤ q.Increase_Index i n ∧ q.Increase_Index i n < q.mIndexEnd := by
  rw [Queue.Increase_Index]
  constructor
  · split <;> omega
  · split <;> omega

end SPSCVerif

namespace SPSCVerif

/-- Full characterisation of `Emplace_Multiple` under the invariants: it
consumes exactly `min (span length) (capacity - count)` elements, returns the
rest, raises count and size accordingly, and preserves the invariants. -/
theorem Queue.Emplace_Multiple_spec {α : Type} (q : Queue α) (vs : List α)
    (hwf : q.WF) (hinv : q.Inv) :
    (q.Emplace_Multiple vs).2
        = vs.drop (min vs.length (q.mCapacity - q.count).toNat)
    ∧ (q.Emplace_Multiple vs).1.size
        = q.size + min vs.length (q.mCapacity - q.count).toNat
    ∧ (q.Emplace_Multiple vs).1.count
        = q.count + min (vs.length : Int) (q.mCapacity - q.count)
    ∧ (q.Emplace_Multiple vs).1.WF ∧ (q.Emplace_Multiple vs).1.Inv := by
  obtain ⟨hal, hlen, hC, hCE, hEmax⟩ := hwf
  obtain ⟨hP1, hP2, hO1, hO2, hsz, hcnt, hw⟩ := hinv
  have hEmax' : q.mIndexEnd ≤ 2147483647 := hEmax
  have hw' : q.mSize < 4294967296 := hw
  have hE : 0 < q.mIndexEnd := by omega
  have hcnt0 : 0 ≤ q.count := Int.emod_nonneg _ (by omega)
  have hmax := Queue.max_slots_push q hC hCE hP1 hP2 hO1 hO2 hcnt
  have hszmod : ((q.mSize % 2147483648 : Nat) : Int) = q.count := by
    have h := hsz
    rw [Queue.size_eq_mod] at h
    exact h
  set ntp := min ((vs.length : Int)) (q.mCapacity - q.count) with hntp
  by_cases hn0 : ntp = 0
  · have hEM : q.Emplace_Multiple vs = (q, vs) := by
      simp only [Queue.Emplace_Multiple]
      rw [hmax, ← hntp, if_pos hn0]
    rw [hEM]
    have hz : min vs.length (q.mCapacity - q.count).toNat = 0 := by omega
    exact ⟨by rw [hz]; rfl, by rw [hz]; rfl, by show q.count = q.count + ntp; omega,
      ⟨hal, hlen, hC, hCE, hEmax⟩,
      hP1, hP2, hO1, hO2, hsz, hcnt, hw⟩
  · have hntp1 : 1 ≤ ntp := by omega
    have hntpC : ntp ≤ q.mCapacity - q.count := by omega
    obtain ⟨s1, hs1len, hEM⟩ :
        ∃ s1 : List (Option α), s1.length = q.storageOf.length ∧
          q.Emplace_Multiple vs =
            ({ q with mStorage := some s1,
                      mPushIndex := q.Increase_Index q.mPushIndex ntp,
                      mSize := (q.mSize + ntp.toNat) % wordMod }, vs.drop ntp.toNat) := by
      simp only [Queue.Emplace_Multiple]
      rw [hmax, ← hntp, if_neg hn0]
      refine ⟨_, ?_, rfl⟩
      split
      · rw [writeRun_length]
      · rw [writeRun_length, writeRun_length]
    have hcount' :
        (q.Increase_Index q.mPushIndex ntp - q.mPopIndex) % q.mIndexEnd
          = q.count + ntp := by
      rw [Queue.Increase_Index]
      exact count_advance_push q.mPushIndex q.mPopIndex q.mIndexEnd q.mCapacity ntp
        hC hCE hP1 hP2 hO1 hO2 (by omega) (by rw [← Queue.count]; omega)
    have htn : ntp.toNat = min vs.length (q.mCapacity - q.count).toNat := by omega
    have hfit : q.mSize % 2147483648 + ntp.toNat < 2147483648 := by omega
    rw [hEM]
    refine ⟨?_, ?_, ?_, ⟨?_, ?_, hC, hCE, hEmax⟩, ?_, ?_, hO1, hO2, ?_, ?_, ?_⟩
    · show vs.drop ntp.toNat = _
      rw [htn]
    · show ((q.mSize + ntp.toNat) % wordMod) &&& low31 = q.size + _
      rw [size_bits_add _ _ hw' hfit, htn]
      rfl
    · show (q.Increase_Index q.mPushIndex ntp - q.mPopIndex) % q.mIndexEnd = _
      rw [hcount']
    · rfl
    · show (Option.getD (some s1) []).length = q.mCapacity.toNat
      rw [Option.getD_some, hs1len]
      exact hlen
    · show 0 ≤ q.Increase_Index q.mPushIndex ntp
      exact (q.Increase_Index_range q.mPushIndex ntp hP1 hP2 (by omega) (by omega)).1
    · show q.Increase_Index q.mPushIndex ntp < q.mIndexEnd
      exact (q.Increase_Index_range q.mPushIndex ntp hP1 hP2 (by omega) (by omega)).2
    · show ((((q.mSize + ntp.toNat) % wordMod) &&& low31 : Nat) : Int)
        = (q.Increase_Index q.mPushIndex ntp - q.mPopIndex) % q.mIndexEnd
      rw [hcount', size_bits_add _ _ hw' hfit]
      have hqsz : ((q.mSize &&& low31 : Nat) : Int) = q.count := hsz
      push_cast
      omega
    · show (q.Increase_Index q.mPushIndex ntp - q.mPopIndex) % q.mIndexEnd ≤ q.mCapacity
      rw [hcount']
      omega
    · show (q.mSize + ntp.toNat) % wordMod < wordMod
      exact Nat.mod_lt _ (by norm_num)

end SPSCVerif

namespace SPSCVerif

/-- Dropping the `none`s never lengthens a list. -/
theorem reduceOption_length_le {α : Type} :
    ∀ l : List (Option α), l.reduceOption.length ≤ l.length := by
  intro l
  induction l with
  | nil => exact Nat.le_refl 0
  | cons x xs ih =>
    cases x with
    | none => simpa [List.reduceOption_cons_of_none] using Nat.le_succ_of_le ih
    | some v => simpa [List.reduceOption_cons_of_some] using ih

/-- Full characterisation of `Pop_Multiple` under the invariants: it removes
exactly `min (container spare capacity) count` elements from the ring, appends
at most that many values, is the identity when that minimum is zero, and
preserves the invariants. -/
theorem Queue.Pop_Multiple_spec {α : Type} (q : Queue α) (c : OutContainer α)
    (hwf : q.WF) (hinv : q.Inv) (hc : c.data.length ≤ c.capacity) :
    ((q.Pop_Multiple c).2.capacity = c.capacity)
    ∧ ((q.Pop_Multiple c).1.count
        = q.count - min ((c.capacity : Int) - (c.data.length : Int)) q.count)
    ∧ ((q.Pop_Multiple c).1.size
        = q.size - (min ((c.capacity : Int) - (c.data.length : Int)) q.count).toNat)
    ∧ ((q.Pop_Multiple c).2.data.length
        ≤ c.data.length + (min ((c.capacity : Int) - (c.data.length : Int)) q.count).toNat)
    ∧ (min ((c.capacity : Int) - (c.data.length : Int)) q.count = 0 →
        q.Pop_Multiple c = (q, c))
    ∧ (q.Pop_Multiple c).1.WF ∧ (q.Pop_Multiple c).1.Inv := by
  obtain ⟨hal, hlen, hC, hCE, hEmax⟩ := hwf
  obtain ⟨hP1, hP2, hO1, hO2, hsz, hcnt, hw⟩ := hinv
  have hEmax' : q.mIndexEnd ≤ 2147483647 := hEmax
  have hw' : q.mSize < 4294967296 := hw
  have hE : 0 < q.mIndexEnd := by omega
  have hcnt0 : 0 ≤ q.count := Int.emod_nonneg _ (by omega)
  have hmaxp := Queue.max_slots_pop q hE hP1 hP2 hO1 hO2
  have hszmod : ((q.mSize % 2147483648 : Nat) : Int) = q.count := by
    have h := hsz
    rw [Queue.size_eq_mod] at h
    exact h
  set ntp := min ((c.capacity : Int) - (c.data.length : Int)) q.count with hntp
  by_cases hn0 : ntp = 0
  · have hEM : q.Pop_Multiple c = (q, c) := by
      simp only [Queue.Pop_Multiple]
      rw [hmaxp, ← hntp, if_pos hn0]
    rw [hEM]
    refine ⟨rfl, by show q.count = q.count - ntp; omega,
      by show q.size = q.size - ntp.toNat; omega,
      by show c.data.length ≤ _; omega,
      fun _ => rfl,
      ⟨hal, hlen, hC, hCE, hEmax⟩,
      hP1, hP2, hO1, hO2, hsz, hcnt, hw⟩
  · have hntp1 : 1 ≤ ntp := by omega
    have hntpc : ntp ≤ q.count := by omega
    obtain ⟨s1, reads, hs1len, hreadslen, hEM⟩ :
        ∃ (s1 : List (Option α)) (reads : List (Option α)),
          s1.length = q.storageOf.length ∧ reads.length = ntp.toNat ∧
          q.Pop_Multiple c =
            ({ q with mStorage := some s1,
                      mPopIndex := q.Increase_Index q.mPopIndex ntp,
                      mSize := (q.mSize + (wordMod - ntp.toNat % wordMod)) % wordMod },
              ⟨c.data ++ reads.reduceOption, c.capacity⟩) := by
      simp only [Queue.Pop_Multiple]
      rw [hmaxp, ← hntp, if_neg hn0]
      refine ⟨_, _, ?_, ?_, rfl⟩
      · split
        · rw [clearRun_length]
        · rw [clearRun_length, clearRun_length]
      · split
        · rw [readRun_length]
        · rw [List.length_append, readRun_length, readRun_length]
          omega
    have hcount' :
        (q.mPushIndex - q.Increase_Index q.mPopIndex ntp) % q.mIndexEnd
          = q.count - ntp := by
      rw [Queue.Increase_Index]
      exact count_advance_pop q.mPushIndex q.mPopIndex q.mIndexEnd q.mCapacity ntp
        hC hCE hP1 hP2 hO1 hO2 (by omega) (by rw [← Queue.count]; omega)
        (by rw [← Queue.count]; omega)
    have hle2 : ntp.toNat ≤ q.mSize % 2147483648 := by omega
    rw [hEM]
    refine ⟨rfl, ?_, ?_, ?_, fun hcontra => absurd hcontra hn0,
      ⟨rfl, ?_, hC, hCE, hEmax⟩, hP1, hP2, ?_, ?_, ?_, ?_, ?_⟩
    · show (q.mPushIndex - q.Increase_Index q.mPopIndex ntp) % q.mIndexEnd = _
      rw [hcount']
    · show ((q.mSize + (wordMod - ntp.toNat % wordMod)) % wordMod) &&& low31
        = q.size - ntp.toNat
      rw [size_bits_sub _ _ hw' hle2]
      rfl
    · show (c.data ++ reads.reduceOption).length ≤ _
      rw [List.length_append]
      have := reduceOption_length_le reads
      omega
    · show (Option.getD (some s1) []).length = q.mCapacity.toNat
      rw [Option.getD_some, hs1len]
      exact hlen
    · show 0 ≤ q.Increase_Index q.mPopIndex ntp
      exact (q.Increase_Index_range q.mPopIndex ntp hO1 hO2 (by omega) (by omega)).1
    · show q.Increase_Index q.mPopIndex ntp < q.mIndexEnd
      exact (q.Increase_Index_range q.mPopIndex ntp hO1 hO2 (by omega) (by omega)).2
    · show ((((q.mSize + (wordMod - ntp.toNat % wordMod)) % wordMod) &&& low31 : Nat) : Int)
        = (q.mPushIndex - q.Increase_Index q.mPopIndex ntp) % q.mIndexEnd
      rw [hcount', size_bits_sub _ _ hw' hle2]
      have hqsz : ((q.mSize &&& low31 : Nat) : Int) = q.count := hsz
      push_cast
      omega
    · show (q.mPushIndex - q.Increase_Index q.mPopIndex ntp) % q.mIndexEnd ≤ q.mCapacity
      rw [hcount']
      omega
    · show (q.mSize + (wordMod - ntp.toNat % wordMod)) % wordMod < wordMod
      exact Nat.mod_lt _ (by norm_num)

end SPSCVerif

namespace SPSCVerif

/-- With all live slots constructed, `Pop_Multiple` appends exactly
`min (spare capacity) count` values to the container. -/
theorem Queue.Pop_Multiple_live_length {α : Type} (q : Queue α) (c : OutContainer α)
    (hwf : q.WF) (hinv : q.Inv) (hlive : q.Live) (hc : c.data.length ≤ c.capacity) :
    (q.Pop_Multiple c).2.data.length
      = c.data.length
        + (min ((c.capacity : Int) - (c.data.length : Int)) q.count).toNat := by
  obtain ⟨hal, hlen, hC, hCE, hEmax⟩ := hwf
  obtain ⟨hP1, hP2, hO1, hO2, hsz, hcnt, hw⟩ := hinv
  have hE : 0 < q.mIndexEnd := by omega
  have hcnt0 : 0 ≤ q.count := Int.emod_nonneg _ (by omega)
  have hmaxp := Queue.max_slots_pop q hE hP1 hP2 hO1 hO2
  set ntp := min ((c.capacity : Int) - (c.data.length : Int)) q.count with hntp
  have hpop0 : 0 ≤ q.mPopIndex % q.mCapacity := Int.emod_nonneg _ (by omega)
  have hpopC : q.mPopIndex % q.mCapacity < q.mCapacity := Int.emod_lt_of_pos _ hC
  have hpopInt : ((q.mPopIndex % q.mCapacity).toNat : Int) = q.mPopIndex % q.mCapacity :=
    Int.toNat_of_nonneg hpop0
  by_cases hn0 : ntp = 0
  · have hEM : q.Pop_Multiple c = (q, c) := by
      simp only [Queue.Pop_Multiple]
      rw [hmaxp, ← hntp, if_pos hn0]
    rw [hEM]
    show c.data.length = _
    omega
  · have hntp1 : 1 ≤ ntp := by omega
    have hntpc : ntp ≤ q.count := by omega
    have hntpcap : ntp ≤ q.mCapacity := by omega
    obtain ⟨reads, hsome, hreadslen, hdata⟩ :
        ∃ reads : List (Option α),
          (∀ x ∈ reads, x.isSome = true) ∧ reads.length = ntp.toNat ∧
          (q.Pop_Multiple c).2.data = c.data ++ reads.reduceOption := by
      simp only [Queue.Pop_Multiple]
      rw [hmaxp, ← hntp, if_neg hn0]
      refine ⟨_, ?_, ?_, rfl⟩
      · split
        case isTrue hdist =>
          intro x hx
          rw [readRun] at hx
          obtain ⟨j, hj, rfl⟩ := List.mem_map.mp hx
          have hjn : j < ntp.toNat := List.mem_range.mp hj
          have hjcnt : j < q.count.toNat := by omega
          have hidx : ((q.mPopIndex + (j : Int)) % q.mCapacity).toNat
              = (q.mPopIndex % q.mCapacity).toNat + j := by
            rw [emod_add_small _ _ _ hC hO1 (by omega)]
            omega
          exact hidx ▸ hlive j hjcnt
        case isFalse hdist =>
          intro x hx
          rcases List.mem_append.mp hx with hx1 | hx2
          · rw [readRun] at hx1
            obtain ⟨j, hj, rfl⟩ := List.mem_map.mp hx1
            have hjn : j < ntp.toNat
                - (((q.mPopIndex % q.mCapacity).toNat : Int) + ntp
                    - q.mCapacity).toNat := List.mem_range.mp hj
            have hjcnt : j < q.count.toNat := by omega
            have hidx : ((q.mPopIndex + (j : Int)) % q.mCapacity).toNat
                = (q.mPopIndex % q.mCapacity).toNat + j := by
              rw [emod_add_small _ _ _ hC hO1 (by omega)]
              omega
            exact hidx ▸ hlive j hjcnt
          · rw [readRun] at hx2
            obtain ⟨j, hj, rfl⟩ := List.mem_map.mp hx2
            have hjn : j < ntp.toNat
                - (ntp.toNat
                    - (((q.mPopIndex % q.mCapacity).toNat : Int) + ntp
                        - q.mCapacity).toNat) := List.mem_range.mp hj
            set init : Nat := ntp.toNat
                - (((q.mPopIndex % q.mCapacity).toNat : Int) + ntp
                    - q.mCapacity).toNat with hinit
            have hjcnt : init + j < q.count.toNat := by omega
            have hidx : ((q.mPopIndex + ((init + j : Nat) : Int)) % q.mCapacity).toNat
                = 0 + j := by
              rw [emod_add_wrap _ _ _ hC hO1 (by push_cast; omega) (by push_cast; omega)]
              push_cast
              omega
            exact hidx ▸ hlive (init + j) hjcnt
      · split
        · rw [readRun_length]
        · rw [List.length_append, readRun_length, readRun_length]
          omega
    rw [hdata, List.length_append, reduceOption_length_of_isSome reads hsome, hreadslen]

end SPSCVerif

namespace SPSCVerif

/-- One producer-then-consumer cycle: `Emplace` one value, then `Pop` once;
returns the final state and the popped value. -/
def Queue.pushPopCycle {α : Type} (q : Queue α) (v : α) : Queue α × Option α :=
  let r := ((q.Emplace v).1).Pop
  (r.1, r.2.2)

/-- Iterated single-element push/pop cycles over a list of values. -/
def Queue.runCycles {α : Type} (q : Queue α) : List α → Queue α × List (Option α)
  | [] => (q, [])
  | v :: vs =>
    let r := q.pushPopCycle v
    let rs := (r.1).runCycles vs
    (rs.1, r.2 :: rs.2)

/-- An allocated, invariant-respecting queue holding no elements. -/
@[reducible] def Queue.EmptyState {α : Type} (q : Queue α) : Prop :=
  q.WF ∧ q.Inv ∧ q.count = 0

/-- Pushing into an empty queue succeeds and leaves one live element in the
front slot. -/
theorem Queue.push_from_empty {α : Type} (q : Queue α) (v : α) (h : q.EmptyState) :
    (q.Emplace v).2 = true
    ∧ (q.Emplace v).1.WF ∧ (q.Emplace v).1.Inv
    ∧ (q.Emplace v).1.count = 1
    ∧ (q.Emplace v).1.storageOf.getD
        (((q.Emplace v).1.mPopIndex % (q.Emplace v).1.mCapacity).toNat) none
        = some v := by
  obtain ⟨hwf, hinv, h0⟩ := h
  obtain ⟨hal, hlen, hC, hCE, hEmax⟩ := hwf
  obtain ⟨hP1, hP2, hO1, hO2, hsz, hcnt, hw⟩ := hinv
  have hE : 0 < q.mIndexEnd := by omega
  have hPO : q.mPopIndex = q.mPushIndex :=
    (Queue.count_eq_zero_iff q hE hP1 hP2 hO1 hO2).mp h0
  have hnf : ¬(q.mPushIndex - q.mPopIndex = q.mCapacity ∨
               q.mPushIndex - q.mPopIndex = q.mCapacity - q.mIndexEnd) := by
    intro hcon
    rcases hcon with h' | h' <;> omega
  obtain ⟨s, hs⟩ := Option.isSome_iff_exists.mp
    (by simpa [Queue.Is_Allocated] using hal)
  have hslen : s.length = q.mCapacity.toNat := by
    simpa [Queue.storageOf, hs] using hlen
  have hidx0 : 0 ≤ q.mPushIndex % q.mCapacity := Int.emod_nonneg _ (by omega)
  have hidxC : q.mPushIndex % q.mCapacity < q.mCapacity := Int.emod_lt_of_pos _ hC
  have hidxlt : (q.mPushIndex % q.mCapacity).toNat < s.length := by omega
  have hpres := Queue.Emplace_preserves q v
    ⟨hal, hlen, hC, hCE, hEmax⟩ ⟨hP1, hP2, hO1, hO2, hsz, hcnt, hw⟩
  refine ⟨?_, hpres.1, hpres.2, ?_, ?_⟩
  · rw [Queue.Emplace_not_full_eq q v hnf]
  · rw [Queue.Emplace_not_full_eq q v hnf]
    show (q.Bump_Index q.mPushIndex - q.mPopIndex) % q.mIndexEnd = 1
    rw [Queue.bump_eq_increase q _ hP2, Queue.Increase_Index]
    rw [count_advance_push q.mPushIndex q.mPopIndex q.mIndexEnd q.mCapacity 1
      hC hCE hP1 hP2 hO1 hO2 (by omega) (by rw [← Queue.count]; omega)]
    rw [← Queue.count, h0]
    norm_num
  · rw [Queue.Emplace_not_full_eq q v hnf]
    show (Queue.storageOf _).getD ((q.mPopIndex % q.mCapacity).toNat) none = some v
    rw [hPO]
    simp only [Queue.storageOf, hs, Option.map_some', Option.getD_some]
    simp [List.getD, List.getElem?_set_self, hidxlt]

/-- Popping a queue holding exactly one element, stored in the front slot,
succeeds with that value and returns the queue to an empty state. -/
theorem Queue.pop_single {α : Type} (q : Queue α) (v : α)
    (hwf : q.WF) (hinv : q.Inv) (h1 : q.count = 1)
    (hslot : q.storageOf.getD ((q.mPopIndex % q.mCapacity).toNat) none = some v) :
    (q.Pop).2.1 = true ∧ (q.Pop).2.2 = some v ∧ (q.Pop).1.EmptyState := by
  have hpres := Queue.Pop_preserves q hwf hinv
  obtain ⟨hal, hlen, hC, hCE, hEmax⟩ := hwf
  obtain ⟨hP1, hP2, hO1, hO2, hsz, hcnt, hw⟩ := hinv
  have hE : 0 < q.mIndexEnd := by omega
  have hne : ¬ q.mPopIndex = q.mPushIndex := by
    intro hcon
    have := (Queue.count_eq_zero_iff q hE hP1 hP2 hO1 hO2).mpr hcon
    omega
  refine ⟨?_, ?_, hpres.1, hpres.2, ?_⟩
  · rw [Queue.Pop_nonempty_eq q hne]
  · rw [Queue.Pop_nonempty_eq q hne]
    exact hslot
  · rw [Queue.Pop_nonempty_eq q hne]
    show (q.mPushIndex - q.Bump_Index q.mPopIndex) % q.mIndexEnd = 0
    rw [Queue.bump_eq_increase q _ hO2, Queue.Increase_Index]
    rw [count_advance_pop q.mPushIndex q.mPopIndex q.mIndexEnd q.mCapacity 1
      hC hCE hP1 hP2 hO1 hO2 (by omega) (by rw [← Queue.count]; omega)
      (by rw [← Queue.count]; omega)]
    rw [← Queue.count, h1]
    norm_num

/-- One full cycle from an empty state pops exactly the pushed value and
returns to an empty state. -/
theorem Queue.cycle_step {α : Type} (q : Queue α) (v : α) (h : q.EmptyState) :
    (q.pushPopCycle v).2 = some v ∧ (q.Emplace v).2 = true
    ∧ (q.pushPopCycle v).1.EmptyState := by
  obtain ⟨ht, hwf1, hinv1, hc1, hslot⟩ := q.push_from_empty v h
  obtain ⟨hp1, hp2, hp3⟩ := Queue.pop_single _ v hwf1 hinv1 hc1 hslot
  exact ⟨hp2, ht, hp3⟩

/-- Any number of push/pop cycles from an empty state returns every pushed
value, in order, and ends empty. -/
theorem Queue.runCycles_spec {α : Type} (q : Queue α) (vs : List α)
    (h : q.EmptyState) :
    (q.runCycles vs).2 = vs.map some ∧ (q.runCycles vs).1.EmptyState := by
  induction vs generalizing q with
  | nil => exact ⟨rfl, h⟩
  | cons v vs ih =>
    obtain ⟨h1, h2, h3⟩ := q.cycle_step v h
    obtain ⟨ih1, ih2⟩ := ih _ h3
    refine ⟨?_, ih2⟩
    show (q.pushPopCycle v).2 :: ((q.pushPopCycle v).1.runCycles vs).2
      = some v :: vs.map some
    rw [h1, ih1]

end SPSCVerif

namespace SPSCVerif

/-- `Pop_Await` on a non-empty ring is exactly a successful `Pop`. -/
theorem Queue.Pop_Await_nonempty {α : Type} (q : Queue α)
    (h : ¬ q.mPopIndex = q.mPushIndex) :
    q.Pop_Await = AwaitResult.popped (q.Pop).2.2 (q.Pop).1 := by
  simp only [Queue.Pop_Await]
  rw [Queue.Pop_nonempty_eq q h]
  simp

/-- `Pop_Await` on an empty ring checks the loaded size word against
`sSizeMask` and otherwise waits. -/
theorem Queue.Pop_Await_empty {α : Type} (q : Queue α)
    (h : q.mPopIndex = q.mPushIndex) :
    q.Pop_Await = (if q.mSize = sSizeMaskBits then AwaitResult.closed q
                   else AwaitResult.blocked) := by
  simp only [Queue.Pop_Await]
  rw [Queue.Pop_empty_eq q h]
  simp

/-- A capacity-3 queue freshly produced by `Allocate`, used as a concrete
exercise vehicle. -/
def qDemo : Queue Nat := ((Queue.new Nat).Allocate (some ()) 3).stateOf

/-- `qDemo` after one push: a single live element `7` in the front slot. -/
def qDemo1 : Queue Nat := (qDemo.Emplace 7).1

/-- `qDemo` after `End_PopWaiting`: empty with the terminal flag set. -/
def qDemoClosed : Queue Nat := qDemo.End_PopWaiting

end SPSCVerif

namespace SPSCVerif

/-- C1: for every allocated queue, a single-element push (`Emplace`) returns
`false` iff the ring is full, where full is decided by the two-point check on
`delta = pushIndex - popIndex` (`delta = capacity` or
`delta = capacity - indexEnd`); under the invariants that check holds exactly
when the count equals the capacity; otherwise the push constructs the value in
slot `pushIndex mod capacity`, advances the push index, increments the size by
one, and returns `true`. -/
theorem emplace_full_check_c1 {α : Type} (q : Queue α) (v : α)
    (hwf : q.WF) (hinv : q.Inv) :
    ((q.Emplace v).2 = false ↔
      (q.mPushIndex - q.mPopIndex = q.mCapacity ∨
       q.mPushIndex - q.mPopIndex = q.mCapacity - q.mIndexEnd))
    ∧ ((q.mPushIndex - q.mPopIndex = q.mCapacity ∨
        q.mPushIndex - q.mPopIndex = q.mCapacity - q.mIndexEnd) ↔
          q.count = q.mCapacity)
    ∧ (¬(q.mPushIndex - q.mPopIndex = q.mCapacity ∨
         q.mPushIndex - q.mPopIndex = q.mCapacity - q.mIndexEnd) →
        (q.Emplace v).2 = true
        ∧ (q.Emplace v).1.mStorage
            = q.mStorage.map
                (fun s => List.set s (q.mPushIndex % q.mCapacity).toNat (some v))
        ∧ (q.Emplace v).1.mPushIndex = q.Bump_Index q.mPushIndex
        ∧ (q.Emplace v).1.size = q.size + 1) := by
  refine ⟨?_, Queue.full_iff_count q hwf hinv, ?_⟩
  · by_cases h : (q.mPushIndex - q.mPopIndex = q.mCapacity ∨
                  q.mPushIndex - q.mPopIndex = q.mCapacity - q.mIndexEnd)
    · rw [Queue.Emplace_full_eq q v h]
      simp [h]
    · rw [Queue.Emplace_not_full_eq q v h]
      simp [h]
  · intro h
    obtain ⟨hal, hlen, hC, hCE, hEmax⟩ := hwf
    obtain ⟨hP1, hP2, hO1, hO2, hsz, hcnt, hw⟩ := hinv
    have hEmax' : q.mIndexEnd ≤ 2147483647 := hEmax
    have hw' : q.mSize < 4294967296 := hw
    have hszmod : ((q.mSize % 2147483648 : Nat) : Int) = q.count := by
      have h5 := hsz
      rw [Queue.size_eq_mod] at h5
      exact h5
    have hcnt0 : 0 ≤ q.count := Int.emod_nonneg _ (by omega)
    rw [Queue.Emplace_not_full_eq q v h]
    refine ⟨rfl, rfl, rfl, ?_⟩
    show ((q.mSize + 1) % wordMod) &&& low31 = q.size + 1
    rw [size_bits_add _ _ hw' (by omega)]
    rfl

/-- C1 witness: on the allocated capacity-3 demo queue the two-point check
fails and the push succeeds. -/
theorem emplace_full_check_c1_witness : (qDemo.Emplace 5).2 = true :=
  ((emplace_full_check_c1 qDemo 5 (by decide) (by decide)).2.2 (by decide)).1

/-- C2: from any allocated empty queue, any sequence of single-element
push/pop cycles (producer then consumer, any length `k * capacity + r`) pops
exactly the pushed values in FIFO order across index wrap-around, every push
succeeding, and the queue ends empty with emptiness correctly detected
(`empty()` true, a further `Pop` failing). -/
theorem fifo_cycles_c2 {α : Type} (q : Queue α) (vs : List α)
    (h : q.EmptyState) :
    (q.runCycles vs).2 = vs.map some
    ∧ (q.runCycles vs).1.EmptyState
    ∧ (q.runCycles vs).1.empty = true
    ∧ ((q.runCycles vs).1.Pop).2.1 = false := by
  obtain ⟨h1, h2⟩ := q.runCycles_spec vs h
  obtain ⟨hwf', hinv', h0'⟩ := h2
  have hE : 0 < (q.runCycles vs).1.mIndexEnd := by
    have := hwf'.2.2.1
    have := hwf'.2.2.2.1
    omega
  have hPO := (Queue.count_eq_zero_iff _ hE hinv'.1 hinv'.2.1 hinv'.2.2.1
    hinv'.2.2.2.1).mp h0'
  have hsz0 : ((q.runCycles vs).1.size : Int) = 0 := by
    rw [hinv'.2.2.2.2.1, h0']
  refine ⟨h1, ⟨hwf', hinv', h0'⟩, ?_, ?_⟩
  · have hz : (q.runCycles vs).1.size = 0 := by exact_mod_cast hsz0
    simp [Queue.empty, hz]
  · rw [Queue.Pop_empty_eq _ hPO]

/-- C2 witness: four cycles on the capacity-3 demo queue (one wrap-around)
return the pushed values in order. -/
theorem fifo_cycles_c2_witness :
    (qDemo.runCycles [10, 20, 30, 40]).2 = [10, 20, 30, 40].map some :=
  (fifo_cycles_c2 qDemo [10, 20, 30, 40] (by decide)).1

/-- C3: on a fresh capacity-3 queue, `Emplace_Multiple [1,2,3,4,5]` pushes
exactly 3 elements, returns the remainder `[4,5]`, and leaves `size() = 3`;
`Pop_Multiple` into an empty container of capacity 10 then yields `[1,2,3]` in
order.  In general a batch push consumes `min (span length) (free slots)`
elements and returns the unconsumed suffix. -/
theorem batch_partial_c3 {α : Type} (q : Queue α) (vs : List α)
    (hwf : q.WF) (hinv : q.Inv) :
    ((qDemo.Emplace_Multiple [1, 2, 3, 4, 5]).2 = [4, 5]
     ∧ (qDemo.Emplace_Multiple [1, 2, 3, 4, 5]).1.size = 3
     ∧ ((qDemo.Emplace_Multiple [1, 2, 3, 4, 5]).1.Pop_Multiple ⟨[], 10⟩).2.data
        = [1, 2, 3])
    ∧ (q.Emplace_Multiple vs).2
        = vs.drop (min vs.length (q.mCapacity - q.count).toNat)
    ∧ (q.Emplace_Multiple vs).1.size
        = q.size + min vs.length (q.mCapacity - q.count).toNat := by
  obtain ⟨hdrop, hsize, _⟩ := Queue.Emplace_Multiple_spec q vs hwf hinv
  exact ⟨⟨by decide, by decide, by decide⟩, hdrop, hsize⟩

/-- C3 witness: the general batch-push bound applied to the demo queue and a
two-element span. -/
theorem batch_partial_c3_witness :
    (qDemo.Emplace_Multiple [8, 9]).2
      = [8, 9].drop (min 2 (qDemo.mCapacity - qDemo.count).toNat) :=
  (batch_partial_c3 qDemo [8, 9] (by decide) (by decide)).2.1

/-- C4: every externally visible operation on an allocated queue (single and
batch push and pop) preserves the invariants: indices stay in
`[0, indexEnd)`, the low 31 bits of the size counter stay equal to the live
count `(pushIndex - popIndex) mod indexEnd`, and that count stays in
`[0, capacity]` (together with the structural well-formedness). -/
theorem invariants_preserved_c4 {α : Type} (q : Queue α) (v : α)
    (vs : List α) (c : OutContainer α)
    (hwf : q.WF) (hinv : q.Inv) (hc : c.data.length ≤ c.capacity) :
    ((q.Emplace v).1.WF ∧ (q.Emplace v).1.Inv)
    ∧ ((q.Pop).1.WF ∧ (q.Pop).1.Inv)
    ∧ ((q.Emplace_Multiple vs).1.WF ∧ (q.Emplace_Multiple vs).1.Inv)
    ∧ ((q.Pop_Multiple c).1.WF ∧ (q.Pop_Multiple c).1.Inv) := by
  have hEM := Queue.Emplace_Multiple_spec q vs hwf hinv
  have hPM := Queue.Pop_Multiple_spec q c hwf hinv hc
  exact ⟨Queue.Emplace_preserves q v hwf hinv,
    Queue.Pop_preserves q hwf hinv,
    ⟨hEM.2.2.2.1, hEM.2.2.2.2⟩,
    ⟨hPM.2.2.2.2.2.1, hPM.2.2.2.2.2.2⟩⟩

/-- C4 witness: the invariants hold after each operation on the demo queue. -/
theorem invariants_preserved_c4_witness :
    (qDemo.Emplace 1).1.Inv ∧ (qDemo1.Pop).1.Inv :=
  ⟨(invariants_preserved_c4 qDemo 1 [] ⟨[], 0⟩ (by decide) (by decide)
      (by decide)).1.2,
   (invariants_preserved_c4 qDemo1 0 [] ⟨[], 0⟩ (by decide) (by decide)
      (by decide)).2.1.2⟩

end SPSCVerif

namespace SPSCVerif

/-- C5: `Pop_Await` returns `false` iff the terminal flag is set and the ring
is empty; on a non-empty ring it returns (`true` with) exactly the value the
FIFO `Pop` yields, also right after `End_PopWaiting`, and it never reports
closure while elements remain. -/
theorem pop_await_c5 {α : Type} (q : Queue α) (hwf : q.WF) (hinv : q.Inv) :
    ((∃ state, q.Pop_Await = AwaitResult.closed state) ↔
      (q.Terminal_Set ∧ q.count = 0))
    ∧ (0 < q.count →
        q.Pop_Await = AwaitResult.popped (q.Pop).2.2 (q.Pop).1
        ∧ (q.Pop).2.1 = true)
    ∧ (0 < q.count →
        (q.End_PopWaiting).Pop_Await
          = AwaitResult.popped ((q.End_PopWaiting).Pop).2.2
              ((q.End_PopWaiting).Pop).1)
    ∧ (0 < q.count → ∀ state, q.Pop_Await ≠ AwaitResult.closed state) := by
  obtain ⟨hal, hlen, hC, hCE, hEmax⟩ := hwf
  obtain ⟨hP1, hP2, hO1, hO2, hsz, hcnt, hw⟩ := hinv
  have hEmax' : q.mIndexEnd ≤ 2147483647 := hEmax
  have hw' : q.mSize < 4294967296 := hw
  have hE : 0 < q.mIndexEnd := by omega
  have hszmod : ((q.mSize % 2147483648 : Nat) : Int) = q.count := by
    have h5 := hsz
    rw [Queue.size_eq_mod] at h5
    exact h5
  have hponc : 0 < q.count → ¬ q.mPopIndex = q.mPushIndex := by
    intro hpos hcon
    have := (Queue.count_eq_zero_iff q hE hP1 hP2 hO1 hO2).mpr hcon
    omega
  refine ⟨?_, ?_, ?_, ?_⟩
  · by_cases hpo : q.mPopIndex = q.mPushIndex
    · have hc0 : q.count = 0 :=
        (Queue.count_eq_zero_iff q hE hP1 hP2 hO1 hO2).mpr hpo
      rw [Queue.Pop_Await_empty q hpo]
      by_cases hm : q.mSize = sSizeMaskBits
      · rw [if_pos hm]
        refine ⟨fun _ => ⟨?_, hc0⟩, fun _ => ⟨q, rfl⟩⟩
        show sSizeMaskBits ≤ q.mSize
        rw [hm]
      · rw [if_neg hm]
        refine ⟨fun hcon => ?_, fun hcon => ?_⟩
        · obtain ⟨state, hstate⟩ := hcon
          exact AwaitResult.noConfusion hstate
        · obtain ⟨hterm, -⟩ := hcon
          have hterm' : 2147483648 ≤ q.mSize := hterm
          have h6 : ((q.mSize % 2147483648 : Nat) : Int) = 0 := by
            rw [hszmod, hc0]
          exact absurd (show q.mSize = sSizeMaskBits by
            show q.mSize = 2147483648
            omega) hm
    · have hcne : q.count ≠ 0 := fun hc =>
        hpo ((Queue.count_eq_zero_iff q hE hP1 hP2 hO1 hO2).mp hc)
      rw [Queue.Pop_Await_nonempty q hpo]
      refine ⟨fun hcon => ?_, fun hcon => ?_⟩
      · obtain ⟨state, hstate⟩ := hcon
        exact AwaitResult.noConfusion hstate
      · exact absurd hcon.2 hcne
  · intro hpos
    have hpo := hponc hpos
    exact ⟨Queue.Pop_Await_nonempty q hpo, by rw [Queue.Pop_nonempty_eq q hpo]⟩
  · intro hpos
    exact Queue.Pop_Await_nonempty (q.End_PopWaiting) (hponc hpos)
  · intro hpos state
    rw [Queue.Pop_Await_nonempty q (hponc hpos)]
    exact fun hcon => AwaitResult.noConfusion hcon

/-- C5 witness: on the demo queue holding one element, `Pop_Await` pops it;
on the closed empty demo queue it reports closure. -/
theorem pop_await_c5_witness :
    qDemo1.Pop_Await = AwaitResult.popped (qDemo1.Pop).2.2 (qDemo1.Pop).1
    ∧ ∃ state, qDemoClosed.Pop_Await = AwaitResult.closed state :=
  ⟨((pop_await_c5 qDemo1 (by decide) (by decide)).2.1 (by decide)).1,
   (pop_await_c5 qDemoClosed (by decide) (by decide)).1.mpr (by decide)⟩

/-- C6 (amended): when the allocator returns the null out-of-memory sentinel,
`Allocate` fails its `Assert` and aborts with the diagnostic
`Memory allocation failed!`; the storage pointer is null (unallocated) at the
moment of the abort.  The failure is fatal, not a propagated non-fatal
error. -/
theorem allocate_failure_aborts_c6 {α : Type} (q : Queue α) (aCapacity : Int)
    (h0 : q.Is_Allocated = false) (h1 : 0 < aCapacity) :
    q.Allocate none aCapacity
      = AllocOutcome.abortAssert "Memory allocation failed!"
          { q with mStorage := none }
    ∧ (q.Allocate none aCapacity).isFatal = true
    ∧ (q.Allocate none aCapacity).stateOf.Is_Allocated = false := by
  have hEM : q.Allocate none aCapacity
      = AllocOutcome.abortAssert "Memory allocation failed!"
          { q with mStorage := none } := by
    simp only [Queue.Allocate]
    rw [if_neg (by simp [h0]), if_neg (by omega)]
  exact ⟨hEM, by rw [hEM]; rfl, by rw [hEM]; rfl⟩

/-- C6 counterexample: with a failing allocator the `Allocate` of the source
dies on a fatal `Assert` (`std::abort`) instead of returning the failure to
the caller as a non-fatal error. -/
theorem allocate_failure_counterexample_c6 :
    ((Queue.new Nat).Allocate none 10).isFatal = true
    ∧ ((Queue.new Nat).Allocate none 10)
        = AllocOutcome.abortAssert "Memory allocation failed!" (Queue.new Nat) := by
  decide

/-- C6 witness: the amended claim at the fresh queue and capacity 1. -/
theorem allocate_failure_aborts_c6_witness :
    ((Queue.new Nat).Allocate none 1).isFatal = true :=
  (allocate_failure_aborts_c6 (Queue.new Nat) 1 (by decide) (by decide)).2.1

/-- C7 (amended): for any unallocated queue and capacity at least 1, a
capacity up to `⌊INT_MAX / 2⌋ = 1073741823` makes `Allocate` succeed,
recording the capacity and `indexEnd = capacity * ⌊INT_MAX / capacity⌋` while
leaving `pushIndex`, `popIndex` and the size counter unchanged (hence zero on
a never-used queue); a larger capacity fails the wrap-around assertion. -/
theorem allocate_success_c7 {α : Type} (q : Queue α) (aCapacity : Int)
    (h0 : q.Is_Allocated = false) (h1 : 1 ≤ aCapacity) :
    (aCapacity ≤ 1073741823 →
      q.Allocate (some ()) aCapacity
        = AllocOutcome.ok
            { q with
                mStorage := some (List.replicate aCapacity.toNat (none : Option α)),
                mCapacity := aCapacity,
                mIndexEnd := aCapacity * (intMax / aCapacity) })
    ∧ (1073741823 < aCapacity →
        q.Allocate (some ()) aCapacity
          = AllocOutcome.abortAssert "Not enough wrap-arounds!"
              { q with
                  mStorage := some (List.replicate aCapacity.toNat (none : Option α)),
                  mCapacity := aCapacity }) := by
  have hintMax : (intMax : Int) = 2147483647 := rfl
  have hdiv : 2 ≤ intMax / aCapacity ↔ aCapacity ≤ 1073741823 := by
    rw [Int.le_ediv_iff_mul_le (by omega)]
    rw [hintMax]
    constructor <;> intro <;> omega
  constructor
  · intro h2
    simp only [Queue.Allocate]
    rw [if_neg (by simp [h0]), if_neg (by omega), if_pos (hdiv.mpr h2)]
  · intro h2
    simp only [Queue.Allocate]
    rw [if_neg (by simp [h0]), if_neg (by omega),
      if_neg (fun hcon => by have := hdiv.mp hcon; omega)]

/-- C7 counterexample: allocating a queue that was used and then freed
succeeds (no abort) but leaves the old, non-zero `pushIndex`/`popIndex` in
place: `Free` does not reset the index atomics, so the claim that every
successful allocate leaves the indices and size at zero fails. -/
theorem allocate_reuse_counterexample_c7 :
    (((((Queue.new Nat).Allocate (some ()) 1).stateOf.Emplace
        7).1.Pop).1.Free).stateOf.Is_Allocated = false
    ∧ ((((((Queue.new Nat).Allocate (some ()) 1).stateOf.Emplace
        7).1.Pop).1.Free).stateOf.Allocate (some ()) 1).isFatal = false
    ∧ ((((((Queue.new Nat).Allocate (some ()) 1).stateOf.Emplace
        7).1.Pop).1.Free).stateOf.Allocate (some ()) 1).stateOf.mPushIndex = 1
    ∧ ((((((Queue.new Nat).Allocate (some ()) 1).stateOf.Emplace
        7).1.Pop).1.Free).stateOf.Allocate (some ()) 1).stateOf.mPopIndex = 1 := by
  decide

/-- C7 witness: the amended claim at the fresh queue and capacity 5. -/
theorem allocate_success_c7_witness :
    (Queue.new Nat).Allocate (some ()) 5
      = AllocOutcome.ok
          { Queue.new Nat with
              mStorage := some (List.replicate (5 : Int).toNat (none : Option Nat)),
              mCapacity := 5,
              mIndexEnd := 5 * (intMax / 5) } :=
  (allocate_success_c7 (Queue.new Nat) 5 (by decide) (by decide)).1 (by decide)

/-- C8: `Free` requires the queue to be allocated and empty; on an
unallocated or non-empty ring it aborts with a diagnostic, and on success it
releases the storage and resets the queue to unallocated with capacity 0. -/
theorem free_spec_c8 {α : Type} (q : Queue α) :
    (q.Is_Allocated = true → q.empty = true →
      q.Free = AllocOutcome.ok { q with mStorage := none, mCapacity := 0 }
      ∧ (q.Free).stateOf.Is_Allocated = false
      ∧ (q.Free).stateOf.mCapacity = 0)
    ∧ (q.Is_Allocated = false →
        q.Free = AllocOutcome.abortAssert "No memory to free!" q)
    ∧ (q.Is_Allocated = true → q.empty = false →
        q.Free = AllocOutcome.abortAssert "Cannot free until empty!" q) := by
  refine ⟨fun ha he => ?_, fun ha => ?_, fun ha he => ?_⟩
  · have hEM : q.Free
        = AllocOutcome.ok { q with mStorage := none, mCapacity := 0 } := by
      rw [Queue.Free, if_neg (by simp [ha]), if_neg (by simp [he])]
    exact ⟨hEM, by rw [hEM]; rfl, by rw [hEM]; rfl⟩
  · rw [Queue.Free, if_pos ha]
  · rw [Queue.Free, if_neg (by simp [ha]), if_pos he]

/-- C8 witness: freeing the allocated empty demo queue succeeds and resets
it. -/
theorem free_spec_c8_witness :
    qDemo.Free = AllocOutcome.ok { qDemo with mStorage := none, mCapacity := 0 } :=
  ((free_spec_c8 qDemo).1 (by decide) (by decide)).1

/-- C9: `End_PopWaiting` and `Reset_PopWaiting` only set or clear the high
bit of the size counter: `size()`, `empty()`, the storage contents and both
indices (and capacity and indexEnd) are unchanged, for every state. -/
theorem waiting_flag_frame_c9 {α : Type} (q : Queue α) :
    (q.End_PopWaiting).size = q.size ∧ (q.End_PopWaiting).empty = q.empty
    ∧ (q.End_PopWaiting).mStorage = q.mStorage
    ∧ (q.End_PopWaiting).mPushIndex = q.mPushIndex
    ∧ (q.End_PopWaiting).mPopIndex = q.mPopIndex
    ∧ (q.End_PopWaiting).mCapacity = q.mCapacity
    ∧ (q.End_PopWaiting).mIndexEnd = q.mIndexEnd
    ∧ (q.End_PopWaiting).mSize.testBit 31 = true
    ∧ (q.Reset_PopWaiting).size = q.size ∧ (q.Reset_PopWaiting).empty = q.empty
    ∧ (q.Reset_PopWaiting).mStorage = q.mStorage
    ∧ (q.Reset_PopWaiting).mPushIndex = q.mPushIndex
    ∧ (q.Reset_PopWaiting).mPopIndex = q.mPopIndex
    ∧ (q.Reset_PopWaiting).mCapacity = q.mCapacity
    ∧ (q.Reset_PopWaiting).mIndexEnd = q.mIndexEnd
    ∧ (q.Reset_PopWaiting).mSize.testBit 31 = false := by
  have hsE : (q.End_PopWaiting).size = q.size := lor_mask_and_low31 q.mSize
  have hsR : (q.Reset_PopWaiting).size = q.size := land_mask_and_low31 q.mSize
  exact ⟨hsE, by simp [Queue.empty, hsE], rfl, rfl, rfl, rfl, rfl,
    testBit31_lor q.mSize,
    hsR, by simp [Queue.empty, hsR], rfl, rfl, rfl, rfl, rfl,
    testBit31_land q.mSize⟩

/-- C10: `Pop_Multiple` pops exactly
`min (live count) (container capacity - container size)` elements: the
container grows by exactly that many values (never beyond its capacity), and
when the container has no spare capacity the call leaves both the queue and
the container completely unchanged even if the queue is non-empty. -/
theorem pop_multiple_space_c10 {α : Type} (q : Queue α) (c : OutContainer α)
    (hwf : q.WF) (hinv : q.Inv) (hlive : q.Live) (hc : c.data.length ≤ c.capacity) :
    ((q.Pop_Multiple c).2.data.length
        = c.data.length
          + (min ((c.capacity : Int) - (c.data.length : Int)) q.count).toNat)
    ∧ ((q.Pop_Multiple c).1.count
        = q.count - min ((c.capacity : Int) - (c.data.length : Int)) q.count)
    ∧ ((q.Pop_Multiple c).2.data.length ≤ c.capacity)
    ∧ ((q.Pop_Multiple c).2.capacity = c.capacity)
    ∧ (c.capacity = c.data.length → q.Pop_Multiple c = (q, c)) := by
  have hspec := Queue.Pop_Multiple_spec q c hwf hinv hc
  have hlen2 := Queue.Pop_Multiple_live_length q c hwf hinv hlive hc
  have hE : 0 < q.mIndexEnd := by
    have h1 := hwf.2.2.1
    have h2 := hwf.2.2.2.1
    omega
  have hcnt0 : 0 ≤ q.count := Int.emod_nonneg _ (by omega)
  refine ⟨hlen2, hspec.2.1, ?_, hspec.1, fun hcc => hspec.2.2.2.2.1 (by omega)⟩
  rw [hlen2]
  omega

/-- C10 witness: a container with zero spare capacity leaves the non-empty
demo queue and the container untouched. -/
theorem pop_multiple_space_c10_witness :
    qDemo1.Pop_Multiple ⟨[], 0⟩ = (qDemo1, (⟨[], 0⟩ : OutContainer Nat)) :=
  (pop_multiple_space_c10 qDemo1 ⟨[], 0⟩ (by decide) (by decide) (by decide)
    (by decide)).2.2.2.2 rfl

end SPSCVerif
